import Mathlib

/-!
Verification development for the `invert` PPM codec
(`PPM.hpp`: class `PPM`, `read_ppm`, `PPM::out_ppm`, `PPM::invert`).

The byte stream of a `std::istream` / `std::ostream` is modelled as a
`List Nat` of byte values.  Machine-integer conversions of the source are
made explicit:
* `std::uint16_t` (the sample type `PPM::data_type`) is `Nat` reduced
  `% 65536` at every store;
* `std::uint8_t` is `Nat` reduced `% 256` at every read of a raw byte;
* `std::size_t` is `Nat` with unsigned-64 wraparound (`% 2^64`) where the
  source can wrap;
* `int` is `Int` restricted to `[-2^31, 2^31-1]` by the extraction
  operator (failed extractions yield `none`).
-/

/-- Hard caps of the source: `PPM::MAX_WIDTH`. -/
def MAX_WIDTH : Nat := 1920

/-- Hard caps of the source: `PPM::MAX_HEIGHT`. -/
def MAX_HEIGHT : Nat := 1080

/-- Hard caps of the source: `PPM::MAX_COLOR_VALUE`. -/
def MAX_COLOR_VALUE : Nat := 65536

/-- `PPM::MagicNum`: the two PPM variants. -/
inductive MagicNum where
  | P3
  | P6
deriving DecidableEq, Repr

/-- `PPM::Error`: a decode error carrying a message string. -/
structure PPMError where
  msg : String
deriving DecidableEq, Repr

/-- The `PPM` image class: magic number, width, height, max color value and
the vector of `uint16_t` samples (`m_magic`, `m_width`, `m_height`, `m_max`,
`m_data`). -/
structure PPM where
  magic : MagicNum
  width : Nat
  height : Nat
  max : Nat
  data : List Nat
deriving DecidableEq, Repr

/-- Whitespace in the default C++ locale: space, \t, \n, \v, \f, \r. -/
def isWs (c : Nat) : Bool :=
  c == 32 || c == 9 || c == 10 || c == 11 || c == 12 || c == 13

/-- ASCII decimal digit. -/
def isDigit (c : Nat) : Bool := 48 ≤ c && c ≤ 57

/-- Skip leading whitespace, as `operator>>` does before any extraction. -/
def skipWs (s : List Nat) : List Nat := s.dropWhile isWs

/-- `is >> m` for a `std::string`: skip whitespace, then take the maximal
run of non-whitespace characters; fails (eof) when that run is empty. -/
def readToken (s : List Nat) : Option (List Nat × List Nat) :=
  let t := skipWs s
  let tok := t.takeWhile (fun c => !isWs c)
  if tok = [] then none else some (tok, t.dropWhile (fun c => !isWs c))

/-- Value of a big-endian list of ASCII digit characters. -/
def digitsVal (ds : List Nat) : Nat :=
  ds.foldl (fun a d => a * 10 + (d - 48)) 0

/-- Read the maximal leading run of decimal digits; fails when empty. -/
def parseDigits (s : List Nat) : Option (Nat × List Nat) :=
  let ds := s.takeWhile isDigit
  if ds = [] then none else some (digitsVal ds, s.dropWhile isDigit)

/-- `is >> w` for a `std::size_t` (`num_get` with `strtoull` semantics):
skip whitespace, accept an optional sign, then digits; a `-` sign negates
modulo `2^64`; overflow of `unsigned long long` sets `failbit`. -/
def readU64 (s : List Nat) : Option (Nat × List Nat) :=
  let t := skipWs s
  if t.head? = some 45 then
    match parseDigits t.tail with
    | none => none
    | some (n, r) =>
      if n < 18446744073709551616 then
        some ((18446744073709551616 - n) % 18446744073709551616, r)
      else none
  else if t.head? = some 43 then
    match parseDigits t.tail with
    | none => none
    | some (n, r) => if n < 18446744073709551616 then some (n, r) else none
  else
    match parseDigits t with
    | none => none
    | some (n, r) => if n < 18446744073709551616 then some (n, r) else none

/-- `is >> v` for an `int`: skip whitespace, optional sign, digits; a value
outside `[-2^31, 2^31-1]` sets `failbit` and the extraction fails. -/
def readInt (s : List Nat) : Option (Int × List Nat) :=
  let t := skipWs s
  if t.head? = some 45 then
    match parseDigits t.tail with
    | none => none
    | some (n, r) => if n ≤ 2147483648 then some (-(n : Int), r) else none
  else if t.head? = some 43 then
    match parseDigits t.tail with
    | none => none
    | some (n, r) => if n ≤ 2147483647 then some ((n : Int), r) else none
  else
    match parseDigits t with
    | none => none
    | some (n, r) => if n ≤ 2147483647 then some ((n : Int), r) else none

/-- Conversion of an `int` operand to `std::size_t` (unsigned 64-bit) as in
the comparison `v > max`: reduction modulo `2^64`.  Valid for any
`v ≥ -2^64`. -/
def u64OfInt (v : Int) : Nat :=
  ((v + 18446744073709551616) % 18446744073709551616).toNat

/-- `static_cast<PPM::data_type>(v)` for an `int` `v`: reduction modulo
`2^16`.  (`2^32` is added first so the `Int` stays nonnegative; it is a
multiple of `2^16`, so the value is unchanged.)  Valid for `v ≥ -2^32`. -/
def u16OfInt (v : Int) : Nat := ((v + 4294967296) % 65536).toNat

/-- `is.ignore(count, delim)`: extract and discard characters until `count`
characters have been discarded, the delimiter has been discarded, or the
stream is exhausted. -/
def ignoreCount : Nat → Nat → List Nat → List Nat
  | 0, _, s => s
  | _ + 1, _, [] => []
  | n + 1, d, c :: cs => if c = d then cs else ignoreCount n d cs

/-- The bytes of the magic token "P3". -/
def strP3 : List Nat := [80, 51]

/-- The bytes of the magic token "P6". -/
def strP6 : List Nat := [80, 54]

/-- The P3 payload loop of `read_ppm` (lines 227-241): read `n` integer
tokens, reject any whose `size_t`-converted value exceeds `max`, and store
each as a `uint16_t`.  Returns the stored samples and the rest of the
stream. -/
def readP3Loop (mx : Nat) : Nat → List Nat → List Nat →
    Except PPMError (List Nat × List Nat)
  | 0, s, acc => .ok (acc, s)
  | n + 1, s, acc =>
    match readInt s with
    | none => .error ⟨"Unexpected EOF in P3 data"⟩
    | some (v, s1) =>
      if u64OfInt v > mx then .error ⟨"P3 color value out of range"⟩
      else readP3Loop mx n s1 (acc ++ [u16OfInt v])

/-- The P6 8-bit payload loop of `read_ppm` (lines 246-253): read `n` raw
bytes into `uint8_t` and store each; no range check against `max`. -/
def readP6Loop8 : Nat → List Nat → List Nat →
    Except PPMError (List Nat × List Nat)
  | 0, s, acc => .ok (acc, s)
  | _ + 1, [], _ => .error ⟨"Unexpected EOF in P6 data (8-bit)"⟩
  | n + 1, b :: s1, acc => readP6Loop8 n s1 (acc ++ [b % 256])

/-- The P6 16-bit payload loop of `read_ppm` (lines 256-275): read `n`
big-endian byte pairs, combine as `hi << 8 | lo`, reject values above
`max`, store as `uint16_t`. -/
def readP6Loop16 (mx : Nat) : Nat → List Nat → List Nat →
    Except PPMError (List Nat × List Nat)
  | 0, s, acc => .ok (acc, s)
  | _ + 1, [], _ => .error ⟨"Unexpected EOF in P6 data (16-bit)"⟩
  | _ + 1, [_], _ => .error ⟨"Unexpected EOF in P6 data (16-bit)"⟩
  | n + 1, hi :: lo :: s1, acc =>
    let v := (hi % 256) * 256 + lo % 256
    if v > mx then .error ⟨"P6 color value out of range"⟩
    else readP6Loop16 mx n s1 (acc ++ [v % 65536])

/-- `read_ppm(std::istream&)` (lines 200-278): parse magic, width, height
and max color value as whitespace-delimited tokens with bound checks in
that order, then decode the payload of `w * h * 3` samples according to
the variant.  For P6, `is.ignore(255, '\n')` discards header trailer
bytes before the raw payload. -/
def read_ppm (s : List Nat) : Except PPMError PPM :=
  match readToken s with
  | none => .error ⟨"Invalid magic number from input"⟩
  | some (m, s1) =>
    if m ≠ strP3 ∧ m ≠ strP6 then .error ⟨"Invalid magic number from input"⟩
    else
      match readU64 s1 with
      | none => .error ⟨"Invalid width from input"⟩
      | some (w, s2) =>
        if w > MAX_WIDTH then .error ⟨"Invalid width from input"⟩
        else
          match readU64 s2 with
          | none => .error ⟨"Invalid height from input"⟩
          | some (h, s3) =>
            if h > MAX_HEIGHT then .error ⟨"Invalid height from input"⟩
            else
              match readU64 s3 with
              | none => .error ⟨"Invalid max color val from input"⟩
              | some (mx, s4) =>
                if mx > MAX_COLOR_VALUE then
                  .error ⟨"Invalid max color val from input"⟩
                else
                  let samples := w * h * 3
                  let mg := if m = strP3 then MagicNum.P3 else MagicNum.P6
                  if m ≠ strP6 then
                    match readP3Loop mx samples s4 [] with
                    | .error e => .error e
                    | .ok (d, _) => .ok ⟨mg, w, h, mx, d⟩
                  else
                    let s5 := ignoreCount 255 10 s4
                    if mx ≤ 255 then
                      match readP6Loop8 samples s5 [] with
                      | .error e => .error e
                      | .ok (d, _) => .ok ⟨mg, w, h, mx, d⟩
                    else
                      match readP6Loop16 mx samples s5 [] with
                      | .error e => .error e
                      | .ok (d, _) => .ok ⟨mg, w, h, mx, d⟩

/-- Fuel-driven big-endian decimal digit writer (structural recursion so
that concrete headers reduce inside the kernel); `decDigitsCore f n` is the
digit string of `n` whenever `n ≤ f`. -/
def decDigitsCore : Nat → Nat → List Nat
  | _, 0 => []
  | 0, _ + 1 => []
  | f + 1, n + 1 => decDigitsCore f ((n + 1) / 10) ++ [48 + (n + 1) % 10]

/-- Decimal ASCII digits of `n`, as printed by `operator<<` on an unsigned
integer: most-significant first, no leading zeros, `"0"` for zero. -/
def decDigits (n : Nat) : List Nat :=
  if n = 0 then [48] else decDigitsCore n n

/-- The payload part of `PPM::out_ppm` (lines 183-197): one raw byte per
sample (`static_cast<unsigned char>`) when `max ≤ 255`, else two raw bytes
per sample, big-endian (`(v >> 8) & 0xFF` then `v & 0xFF`). -/
def payloadBytes (p : PPM) : List Nat :=
  if p.max ≤ 255 then p.data.map (fun v => v % 256)
  else (p.data.map (fun v => [v / 256 % 256, v % 256])).flatten

/-- `PPM::out_ppm(std::ostream&)` (lines 178-198): textual header
`magic \n width ' ' height \n max \n`, then the raw payload bytes —
for both variants. -/
def PPM.out_ppm (p : PPM) : List Nat :=
  (if p.magic = MagicNum.P3 then strP3 else strP6) ++ [10]
    ++ decDigits p.width ++ [32] ++ decDigits p.height ++ [10]
    ++ decDigits p.max ++ [10] ++ payloadBytes p

/-- One sample step of `PPM::invert` (line 111): `i = get_max() - i` with
`i : uint16_t` promoted to `size_t`, the subtraction wrapping modulo
`2^64`, and the store truncating to `uint16_t`.  Since `2^16` divides
`2^64`, the stored value is `(max + 2^64 - i) % 2^16` for any
`i ≤ 2^64`. -/
def invertSample (mx i : Nat) : Nat := (mx + 18446744073709551616 - i) % 65536

/-- `PPM::invert` (line 111): replace every sample by the wrapped
difference from `m_max`; no other field changes. -/
def PPM.invert (p : PPM) : PPM :=
  { p with data := p.data.map (invertSample p.max) }

/-- The error taxonomy of the specification (§7). -/
inductive ErrKind where
  | InvalidMagic
  | InvalidWidth
  | InvalidHeight
  | InvalidMaxValue
  | TruncatedPayload
  | SampleOutOfRange
  | Unknown
deriving DecidableEq, Repr

/-- Map each concrete `PPM::Error` message of the source onto the
specification's error kind. -/
def errKind (e : PPMError) : ErrKind :=
  if e.msg = "Invalid magic number from input" then .InvalidMagic
  else if e.msg = "Invalid width from input" then .InvalidWidth
  else if e.msg = "Invalid height from input" then .InvalidHeight
  else if e.msg = "Invalid max color val from input" then .InvalidMaxValue
  else if e.msg = "Unexpected EOF in P3 data" then .TruncatedPayload
  else if e.msg = "Unexpected EOF in P6 data (8-bit)" then .TruncatedPayload
  else if e.msg = "Unexpected EOF in P6 data (16-bit)" then .TruncatedPayload
  else if e.msg = "P3 color value out of range" then .SampleOutOfRange
  else if e.msg = "P6 color value out of range" then .SampleOutOfRange
  else .Unknown

/-- The four invariants of §3, over the embedded image, together with the
`uint16_t` representability of the sample storage (inherent to
`PPM::data_type`). -/
def PPM.Valid (p : PPM) : Prop :=
  p.width ≤ MAX_WIDTH ∧ p.height ≤ MAX_HEIGHT ∧ p.max ≤ MAX_COLOR_VALUE ∧
  p.data.length = p.width * p.height * 3 ∧
  ∀ x ∈ p.data, x ≤ p.max ∧ x < 65536

/-! ### List and digit-printing lemmas -/

lemma takeWhile_append_cons {p : Nat → Bool} (xs : List Nat) (y : Nat)
    (ys : List Nat) (hxs : ∀ x ∈ xs, p x = true) (hy : p y = false) :
    (xs ++ y :: ys).takeWhile p = xs := by
  induction xs with
  | nil => simp [List.takeWhile_cons, hy]
  | cons a t ih =>
    have ha := hxs a (by simp)
    simp only [List.cons_append, List.takeWhile_cons, ha, if_true]
    rw [ih (fun x hx => hxs x (by simp [hx]))]

lemma dropWhile_append_cons {p : Nat → Bool} (xs : List Nat) (y : Nat)
    (ys : List Nat) (hxs : ∀ x ∈ xs, p x = true) (hy : p y = false) :
    (xs ++ y :: ys).dropWhile p = y :: ys := by
  induction xs with
  | nil => simp [List.dropWhile_cons, hy]
  | cons a t ih =>
    have ha := hxs a (by simp)
    simp only [List.cons_append, List.dropWhile_cons, ha, if_true]
    exact ih (fun x hx => hxs x (by simp [hx]))

lemma foldl_digitStep (l : List Nat) : ∀ a : Nat,
    List.foldl (fun a d => a * 10 + (d - 48)) a (l.map (fun d => d + 48)) =
      a * 10 ^ l.length + Nat.ofDigits 10 l.reverse := by
  induction l with
  | nil => intro a; simp [Nat.ofDigits_nil]
  | cons d t ih =>
    intro a
    simp only [List.map_cons, List.foldl_cons, List.length_cons,
      List.reverse_cons, Nat.ofDigits_append, Nat.ofDigits_cons,
      Nat.ofDigits_nil, Nat.add_sub_cancel, ih]
    simp [List.length_reverse]
    ring

lemma decDigitsCore_eq : ∀ (f n : Nat), n ≤ f →
    decDigitsCore f n = (Nat.digits 10 n).reverse.map (fun d => d + 48) := by
  intro f
  induction f with
  | zero =>
    intro n hn
    interval_cases n
    simp [decDigitsCore]
  | succ f ih =>
    intro n hn
    cases n with
    | zero => simp [decDigitsCore]
    | succ m =>
      have hdiv : (m + 1) / 10 ≤ f := by
        have := Nat.div_lt_self (Nat.succ_pos m) (by norm_num : 1 < 10)
        omega
      rw [show decDigitsCore (f + 1) (m + 1) =
            decDigitsCore f ((m + 1) / 10) ++ [48 + (m + 1) % 10] from rfl,
          ih _ hdiv,
          Nat.digits_def' (by norm_num : 1 < 10) (Nat.succ_pos m)]
      simp [Nat.add_comm]

lemma decDigits_eq_digits (n : Nat) (h : n ≠ 0) :
    decDigits n = (Nat.digits 10 n).reverse.map (fun d => d + 48) := by
  simp only [decDigits, h, if_false]
  exact decDigitsCore_eq n n le_rfl

lemma digitsVal_decDigits (n : Nat) : digitsVal (decDigits n) = n := by
  by_cases h : n = 0
  · subst h; simp [decDigits, digitsVal]
  · have := foldl_digitStep (Nat.digits 10 n).reverse 0
    rw [decDigits_eq_digits n h]
    unfold digitsVal
    rw [this]
    simp [Nat.ofDigits_digits]

lemma decDigits_isDigit (n : Nat) : ∀ c ∈ decDigits n, isDigit c = true := by
  intro c hc
  by_cases h : n = 0
  · subst h; simp [decDigits] at hc; subst hc; decide
  · rw [decDigits_eq_digits n h] at hc
    simp only [List.mem_map, List.mem_reverse] at hc
    obtain ⟨d, hd, rfl⟩ := hc
    have := Nat.digits_lt_base (by norm_num) hd
    simp [isDigit]
    omega

lemma decDigits_ne_nil (n : Nat) : decDigits n ≠ [] := by
  by_cases h : n = 0
  · subst h; simp [decDigits]
  · have hne : Nat.digits 10 n ≠ [] := Nat.digits_ne_nil_iff_ne_zero.mpr h
    rw [decDigits_eq_digits n h]
    simp only [ne_eq, List.map_eq_nil_iff, List.reverse_eq_nil_iff]
    exact hne

lemma isDigit_not_ws {c : Nat} (h : isDigit c = true) : isWs c = false := by
  simp [isDigit] at h
  simp [isWs]
  omega

lemma isDigit_ne_45 {c : Nat} (h : isDigit c = true) : c ≠ 45 := by
  simp [isDigit] at h; omega

lemma isDigit_ne_43 {c : Nat} (h : isDigit c = true) : c ≠ 43 := by
  simp [isDigit] at h; omega

/-! ### Extraction lemmas for the stream operators -/

lemma skipWs_cons_ws {c : Nat} (h : isWs c = true) (s : List Nat) :
    skipWs (c :: s) = skipWs s := by
  simp [skipWs, List.dropWhile_cons, h]

lemma skipWs_cons_not_ws {c : Nat} (h : isWs c = false) (s : List Nat) :
    skipWs (c :: s) = c :: s := by
  simp [skipWs, List.dropWhile_cons, h]

lemma readU64_cons_ws {c : Nat} (h : isWs c = true) (s : List Nat) :
    readU64 (c :: s) = readU64 s := by
  unfold readU64
  rw [skipWs_cons_ws h]

lemma parseDigits_decDigits (n c : Nat) (rest : List Nat)
    (hc : isDigit c = false) :
    parseDigits (decDigits n ++ c :: rest) = some (n, c :: rest) := by
  have h1 := takeWhile_append_cons (decDigits n) c rest (decDigits_isDigit n) hc
  have h2 := dropWhile_append_cons (decDigits n) c rest (decDigits_isDigit n) hc
  simp only [parseDigits, h1, h2, decDigits_ne_nil n, if_false,
    digitsVal_decDigits]

lemma readU64_decDigits (n : Nat) (hn : n < 18446744073709551616) (c : Nat)
    (hc : isDigit c = false) (rest : List Nat) :
    readU64 (decDigits n ++ c :: rest) = some (n, c :: rest) := by
  obtain ⟨d, t, hdt⟩ := List.exists_cons_of_ne_nil (decDigits_ne_nil n)
  have hd : isDigit d = true := decDigits_isDigit n d (by rw [hdt]; simp)
  have hs : skipWs (decDigits n ++ c :: rest) = decDigits n ++ c :: rest := by
    rw [hdt, List.cons_append, skipWs_cons_not_ws (isDigit_not_ws hd)]
  have hhead : (decDigits n ++ c :: rest).head? = some d := by
    rw [hdt]; simp
  unfold readU64
  simp only []
  rw [hs, hhead]
  rw [if_neg (by simpa using isDigit_ne_45 hd),
      if_neg (by simpa using isDigit_ne_43 hd),
      parseDigits_decDigits n c rest hc]
  simp [hn]

lemma readToken_magic (mtok : List Nat) (hne : mtok ≠ [])
    (hm : ∀ x ∈ mtok, isWs x = false) (c : Nat) (hc : isWs c = true)
    (rest : List Nat) :
    readToken (mtok ++ c :: rest) = some (mtok, c :: rest) := by
  obtain ⟨d, t, hdt⟩ := List.exists_cons_of_ne_nil hne
  have hd : isWs d = false := hm d (by rw [hdt]; simp)
  have hm' : ∀ x ∈ mtok, (fun c => !isWs c) x = true := by
    intro x hx; simp [hm x hx]
  have hc' : (fun c => !isWs c) c = false := by simp [hc]
  have hs : skipWs (mtok ++ c :: rest) = mtok ++ c :: rest := by
    rw [hdt, List.cons_append, skipWs_cons_not_ws hd]
  have h1 := takeWhile_append_cons (p := fun c => !isWs c) mtok c rest hm' hc'
  have h2 := dropWhile_append_cons (p := fun c => !isWs c) mtok c rest hm' hc'
  unfold readToken
  simp only []
  rw [hs, h1, h2, if_neg hne]

lemma readInt_range {s : List Nat} {v : Int} {r : List Nat}
    (h : readInt s = some (v, r)) : -2147483648 ≤ v ∧ v ≤ 2147483647 := by
  simp only [readInt] at h
  repeat' split at h
  all_goals (try simp_all)
  all_goals omega

/-! ### Payload loop lemmas -/

lemma readP6Loop8_append (bytes : List Nat) : ∀ (rest acc : List Nat),
    readP6Loop8 bytes.length (bytes ++ rest) acc =
      .ok (acc ++ bytes.map (fun b => b % 256), rest) := by
  induction bytes with
  | nil => intro rest acc; simp [readP6Loop8]
  | cons b t ih =>
    intro rest acc
    simp only [List.length_cons, List.cons_append, readP6Loop8, List.map_cons,
      List.append_eq]
    rw [ih rest (acc ++ [b % 256])]
    simp

lemma readP6Loop8_consumes : ∀ (n : Nat) (s acc out r : List Nat),
    readP6Loop8 n s acc = .ok (out, r) → s.length = n + r.length := by
  intro n
  induction n with
  | zero =>
    intro s acc out r h
    simp only [readP6Loop8, Except.ok.injEq, Prod.mk.injEq] at h
    obtain ⟨-, rfl⟩ := h
    omega
  | succ n ih =>
    intro s acc out r h
    cases s with
    | nil => simp [readP6Loop8] at h
    | cons b s1 =>
      simp only [readP6Loop8] at h
      have := ih s1 (acc ++ [b % 256]) out r h
      simp only [List.length_cons]
      omega

lemma readP6Loop8_sound : ∀ (n : Nat) (s acc out r : List Nat),
    readP6Loop8 n s acc = .ok (out, r) → (∀ x ∈ acc, x ≤ 255) →
    ∀ x ∈ out, x ≤ 255 := by
  intro n
  induction n with
  | zero =>
    intro s acc out r h hacc
    simp only [readP6Loop8, Except.ok.injEq, Prod.mk.injEq] at h
    obtain ⟨rfl, -⟩ := h
    exact hacc
  | succ n ih =>
    intro s acc out r h hacc
    cases s with
    | nil => simp [readP6Loop8] at h
    | cons b s1 =>
      simp only [readP6Loop8] at h
      refine ih s1 (acc ++ [b % 256]) out r h ?_
      intro x hx
      rcases List.mem_append.mp hx with hx | hx
      · exact hacc x hx
      · simp at hx
        omega

lemma readP6Loop16_append (mx : Nat) (l : List Nat)
    (hl : ∀ v ∈ l, v ≤ mx ∧ v < 65536) : ∀ (rest acc : List Nat),
    readP6Loop16 mx l.length
      ((l.map (fun v => [v / 256 % 256, v % 256])).flatten ++ rest) acc =
      .ok (acc ++ l, rest) := by
  induction l with
  | nil => intro rest acc; simp [readP6Loop16]
  | cons v t ih =>
    intro rest acc
    obtain ⟨hv1, hv2⟩ := hl v (by simp)
    simp only [List.length_cons, List.map_cons, List.flatten_cons,
      List.cons_append, List.append_assoc, readP6Loop16]
    have e1 : v / 256 % 256 % 256 * 256 + v % 256 % 256 = v := by omega
    rw [e1, if_neg (by omega)]
    have e2 : v % 65536 = v := by omega
    simp only [List.append_eq, List.nil_append]
    rw [e2, ih (fun x hx => hl x (by simp [hx])) rest (acc ++ [v])]
    simp

lemma readP6Loop16_consumes (mx : Nat) : ∀ (n : Nat) (s acc out r : List Nat),
    readP6Loop16 mx n s acc = .ok (out, r) → s.length = 2 * n + r.length := by
  intro n
  induction n with
  | zero =>
    intro s acc out r h
    simp only [readP6Loop16, Except.ok.injEq, Prod.mk.injEq] at h
    obtain ⟨-, rfl⟩ := h
    omega
  | succ n ih =>
    intro s acc out r h
    match s with
    | [] => simp [readP6Loop16] at h
    | [b] => simp [readP6Loop16] at h
    | hi :: lo :: s1 =>
      simp only [readP6Loop16] at h
      split at h
      · simp at h
      · have := ih s1 _ out r h
        simp only [List.length_cons]
        omega

lemma readP6Loop16_sound (mx : Nat) : ∀ (n : Nat) (s acc out r : List Nat),
    readP6Loop16 mx n s acc = .ok (out, r) →
    (∀ x ∈ acc, x ≤ mx ∧ x < 65536) → ∀ x ∈ out, x ≤ mx ∧ x < 65536 := by
  intro n
  induction n with
  | zero =>
    intro s acc out r h hacc
    simp only [readP6Loop16, Except.ok.injEq, Prod.mk.injEq] at h
    obtain ⟨rfl, -⟩ := h
    exact hacc
  | succ n ih =>
    intro s acc out r h hacc
    match s with
    | [] => simp [readP6Loop16] at h
    | [b] => simp [readP6Loop16] at h
    | hi :: lo :: s1 =>
      simp only [readP6Loop16] at h
      split at h
      · simp at h
      · rename_i hle
        refine ih s1 _ out r h ?_
        intro x hx
        rcases List.mem_append.mp hx with hx | hx
        · exact hacc x hx
        · simp at hx
          omega

lemma readP3Loop_sound (mx : Nat) (hmx : mx ≤ 65536) :
    ∀ (n : Nat) (s acc out r : List Nat),
    readP3Loop mx n s acc = .ok (out, r) →
    (∀ x ∈ acc, x ≤ mx ∧ x < 65536) → ∀ x ∈ out, x ≤ mx ∧ x < 65536 := by
  intro n
  induction n with
  | zero =>
    intro s acc out r h hacc
    simp only [readP3Loop, Except.ok.injEq, Prod.mk.injEq] at h
    obtain ⟨rfl, -⟩ := h
    exact hacc
  | succ n ih =>
    intro s acc out r h hacc
    simp only [readP3Loop] at h
    cases hri : readInt s with
    | none => rw [hri] at h; simp at h
    | some vr =>
      obtain ⟨v, s1⟩ := vr
      rw [hri] at h
      simp only [] at h
      split at h
      · simp at h
      · rename_i hle
        have hrange := readInt_range hri
        refine ih s1 _ out r h ?_
        intro x hx
        rcases List.mem_append.mp hx with hx | hx
        · exact hacc x hx
        · simp at hx
          subst hx
          unfold u64OfInt at hle
          unfold u16OfInt
          omega

/-! ### Decode success facts -/

lemma read_ppm_ok {s : List Nat} {img : PPM} (h : read_ppm s = .ok img) :
    img.width ≤ 1920 ∧ img.height ≤ 1080 ∧ img.max ≤ 65536 ∧
    (∀ x ∈ img.data, x < 65536) ∧
    (img.magic = MagicNum.P3 → ∀ x ∈ img.data, x ≤ img.max) ∧
    (255 < img.max → ∀ x ∈ img.data, x ≤ img.max) ∧
    (img.magic = MagicNum.P6 → img.max ≤ 255 → ∀ x ∈ img.data, x ≤ 255) := by
  simp only [read_ppm, MAX_WIDTH, MAX_HEIGHT, MAX_COLOR_VALUE] at h
  split at h
  · exact absurd h (by simp)
  next m s1 htok =>
    split at h
    · exact absurd h (by simp)
    next hmag =>
      split at h
      · exact absurd h (by simp)
      next w s2 hwrd =>
        split at h
        · exact absurd h (by simp)
        next hw =>
          split at h
          · exact absurd h (by simp)
          next hgt s3 hhrd =>
            split at h
            · exact absurd h (by simp)
            next hh =>
              split at h
              · exact absurd h (by simp)
              next mx s4 hmrd =>
                split at h
                · exact absurd h (by simp)
                next hmx =>
                  split at h
                  next hp3 =>
                    have hm3 : m = strP3 := by tauto
                    split at h
                    · exact absurd h (by simp)
                    next d r hloop =>
                      rw [Except.ok.injEq] at h
                      subst h
                      have hd := readP3Loop_sound mx (by omega) _ _ _ _ _
                        hloop (by simp)
                      simp only [hm3, if_pos]
                      refine ⟨by omega, by omega, by omega, ?_, ?_, ?_, ?_⟩
                      · exact fun x hx => (hd x hx).2
                      · exact fun _ x hx => (hd x hx).1
                      · exact fun _ x hx => (hd x hx).1
                      · intro hcon
                        simp at hcon
                  next hp6 =>
                    have hm6 : m = strP6 := by tauto
                    have hm36 : m ≠ strP3 := by rw [hm6]; decide
                    split at h
                    next hle255 =>
                      split at h
                      · exact absurd h (by simp)
                      next d r hloop =>
                        rw [Except.ok.injEq] at h
                        subst h
                        have hd := readP6Loop8_sound _ _ _ _ _ hloop (by simp)
                        simp only [hm36, if_neg]
                        refine ⟨by omega, by omega, by omega, ?_, ?_, ?_, ?_⟩
                        · exact fun x hx => by have := hd x hx; omega
                        · intro hcon; simp at hcon
                        · intro hcon; omega
                        · exact fun _ _ x hx => hd x hx
                    next hgt255 =>
                      split at h
                      · exact absurd h (by simp)
                      next d r hloop =>
                        rw [Except.ok.injEq] at h
                        subst h
                        have hd := readP6Loop16_sound mx _ _ _ _ _ hloop
                          (by simp)
                        simp only [hm36, if_neg]
                        refine ⟨by omega, by omega, by omega, ?_, ?_, ?_, ?_⟩
                        · exact fun x hx => (hd x hx).2
                        · intro hcon; simp at hcon
                        · exact fun _ x hx => (hd x hx).1
                        · intro _ hcon; omega

/-! ### Round-trip for the binary variant -/

lemma map_mod256_eq_self {l : List Nat} (hl : ∀ x ∈ l, x ≤ 255) :
    l.map (fun v => v % 256) = l := by
  induction l with
  | nil => rfl
  | cons a t ih =>
    have ha := hl a (by simp)
    simp only [List.map_cons, List.cons.injEq]
    exact ⟨by omega, ih (fun x hx => hl x (by simp [hx]))⟩

lemma ignoreCount255_nl (rest : List Nat) :
    ignoreCount 255 10 (10 :: rest) = rest := rfl

lemma roundtrip_p6 (p : PPM) (hmag : p.magic = MagicNum.P6)
    (hw : p.width ≤ 1920) (hh : p.height ≤ 1080) (hmx : p.max ≤ 65536)
    (hlen : p.data.length = p.width * p.height * 3)
    (hdata : ∀ x ∈ p.data, x ≤ p.max ∧ x < 65536) :
    read_ppm (PPM.out_ppm p) = .ok p := by
  obtain ⟨mg, w, hgt, mx, d⟩ := p
  simp only at hmag hw hh hmx hlen hdata
  subst hmag
  have hshape : PPM.out_ppm ⟨MagicNum.P6, w, hgt, mx, d⟩ =
      strP6 ++ 10 :: (decDigits w ++ 32 :: (decDigits hgt ++ 10 ::
        (decDigits mx ++ 10 :: payloadBytes ⟨MagicNum.P6, w, hgt, mx, d⟩))) := by
    simp [PPM.out_ppm, List.append_assoc]
  rw [hshape]
  rw [read_ppm]
  rw [readToken_magic strP6 (by decide) (by decide) 10 (by decide) _]
  simp only []
  rw [if_neg (by decide)]
  rw [readU64_cons_ws (by decide),
    readU64_decDigits w (by omega) 32 (by decide) _]
  simp only []
  rw [if_neg (by simp only [MAX_WIDTH]; omega)]
  rw [readU64_cons_ws (by decide),
    readU64_decDigits hgt (by omega) 10 (by decide) _]
  simp only []
  rw [if_neg (by simp only [MAX_HEIGHT]; omega)]
  rw [readU64_cons_ws (by decide),
    readU64_decDigits mx (by omega) 10 (by decide) _]
  simp only []
  rw [if_neg (by simp only [MAX_COLOR_VALUE]; omega)]
  rw [if_neg (by decide)]
  rw [ignoreCount255_nl]
  by_cases hc : mx ≤ 255
  · rw [if_pos hc]
    have hb : payloadBytes ⟨MagicNum.P6, w, hgt, mx, d⟩ = d := by
      simp only [payloadBytes, if_pos hc]
      exact map_mod256_eq_self (fun x hx => by have := hdata x hx; omega)
    rw [hb]
    have hloop := readP6Loop8_append d [] []
    rw [List.append_nil, List.nil_append] at hloop
    rw [map_mod256_eq_self (fun x hx => by have := hdata x hx; omega)] at hloop
    rw [show w * hgt * 3 = d.length from hlen.symm, hloop]
    simp
    decide
  · rw [if_neg hc]
    have hb : payloadBytes ⟨MagicNum.P6, w, hgt, mx, d⟩ =
        (d.map (fun v => [v / 256 % 256, v % 256])).flatten := by
      simp only [payloadBytes, if_neg hc]
    rw [hb]
    have hloop := readP6Loop16_append mx d hdata [] []
    rw [List.append_nil, List.nil_append] at hloop
    rw [show w * hgt * 3 = d.length from hlen.symm, hloop]
    simp
    decide

/-! ### Invert lemmas -/

lemma invertSample_invert {mx i : Nat} (hi : i < 65536) :
    invertSample mx (invertSample mx i) = i := by
  unfold invertSample
  omega

lemma invertSample_eq_sub {mx i : Nat} (hmx : mx ≤ 65535) (hi : i ≤ mx) :
    invertSample mx i = mx - i := by
  unfold invertSample
  omega

lemma invertSample_le {mx i : Nat} (hmx : mx ≤ 65536) (hi : i ≤ mx) :
    invertSample mx i ≤ mx := by
  unfold invertSample
  omega

lemma map_invert_invert {mx : Nat} {d : List Nat} (hd : ∀ x ∈ d, x < 65536) :
    (d.map (invertSample mx)).map (invertSample mx) = d := by
  induction d with
  | nil => rfl
  | cons a t ih =>
    simp only [List.map_cons, List.cons.injEq]
    exact ⟨invertSample_invert (hd a (by simp)),
      ih (fun x hx => hd x (by simp [hx]))⟩

lemma map_invert_eq_sub {mx : Nat} {d : List Nat} (hmx : mx ≤ 65535)
    (hd : ∀ x ∈ d, x ≤ mx) :
    d.map (invertSample mx) = d.map (fun s => mx - s) := by
  induction d with
  | nil => rfl
  | cons a t ih =>
    simp only [List.map_cons, List.cons.injEq]
    exact ⟨invertSample_eq_sub hmx (hd a (by simp)),
      ih (fun x hx => hd x (by simp [hx]))⟩

/-! ### ignore(255, newline) lemmas -/

lemma ignoreCount_skips_to_delim (d : Nat) :
    ∀ (pre : List Nat) (n : Nat) (rest : List Nat), pre.length ≤ n →
    (∀ c ∈ pre, c ≠ d) → ignoreCount (n + 1) d (pre ++ d :: rest) = rest := by
  intro pre
  induction pre with
  | nil =>
    intro n rest h1 h2
    simp [ignoreCount]
  | cons c t ih =>
    intro n rest h1 h2
    have hc : c ≠ d := h2 c (by simp)
    cases n with
    | zero => simp at h1
    | succ n =>
      simp only [List.cons_append, ignoreCount, if_neg hc]
      exact ih n rest (by simpa using h1) (fun x hx => h2 x (by simp [hx]))

/-! ### Ordered header checks -/

lemma read_ppm_invalid_magic_none {s : List Nat} (h : readToken s = none) :
    read_ppm s = .error ⟨"Invalid magic number from input"⟩ := by
  rw [read_ppm, h]

lemma read_ppm_invalid_magic_tok {s m s1 : List Nat}
    (h : readToken s = some (m, s1)) (h3 : m ≠ strP3) (h6 : m ≠ strP6) :
    read_ppm s = .error ⟨"Invalid magic number from input"⟩ := by
  rw [read_ppm, h]
  simp only []
  rw [if_pos ⟨h3, h6⟩]

lemma read_ppm_invalid_width {s m s1 : List Nat}
    (htok : readToken s = some (m, s1)) (hm : m = strP3 ∨ m = strP6)
    (hw : readU64 s1 = none ∨ ∃ w s2, readU64 s1 = some (w, s2) ∧ 1920 < w) :
    read_ppm s = .error ⟨"Invalid width from input"⟩ := by
  rw [read_ppm, htok]
  simp only []
  rw [if_neg (by tauto)]
  rcases hw with hw | ⟨w, s2, hw, hgt⟩
  · rw [hw]
  · rw [hw]
    simp only []
    rw [if_pos (by simp only [MAX_WIDTH]; omega)]

lemma read_ppm_invalid_height {s m s1 s2 : List Nat} {wv : Nat}
    (htok : readToken s = some (m, s1)) (hm : m = strP3 ∨ m = strP6)
    (hwrd : readU64 s1 = some (wv, s2)) (hwle : wv ≤ 1920)
    (hh : readU64 s2 = none ∨ ∃ h s3, readU64 s2 = some (h, s3) ∧ 1080 < h) :
    read_ppm s = .error ⟨"Invalid height from input"⟩ := by
  rw [read_ppm, htok]
  simp only []
  rw [if_neg (by tauto), hwrd]
  simp only []
  rw [if_neg (by simp only [MAX_WIDTH]; omega)]
  rcases hh with hh | ⟨hv, s3, hh, hgt⟩
  · rw [hh]
  · rw [hh]
    simp only []
    rw [if_pos (by simp only [MAX_HEIGHT]; omega)]

lemma read_ppm_invalid_max {s m s1 s2 s3 : List Nat} {wv hv : Nat}
    (htok : readToken s = some (m, s1)) (hm : m = strP3 ∨ m = strP6)
    (hwrd : readU64 s1 = some (wv, s2)) (hwle : wv ≤ 1920)
    (hhrd : readU64 s2 = some (hv, s3)) (hhle : hv ≤ 1080)
    (hmx : readU64 s3 = none ∨
      ∃ mv s4, readU64 s3 = some (mv, s4) ∧ 65536 < mv) :
    read_ppm s = .error ⟨"Invalid max color val from input"⟩ := by
  rw [read_ppm, htok]
  simp only []
  rw [if_neg (by tauto), hwrd]
  simp only []
  rw [if_neg (by simp only [MAX_WIDTH]; omega), hhrd]
  simp only []
  rw [if_neg (by simp only [MAX_HEIGHT]; omega)]
  rcases hmx with hmx | ⟨mv, s4, hmx, hgt⟩
  · rw [hmx]
  · rw [hmx]
    simp only []
    rw [if_pos (by simp only [MAX_COLOR_VALUE]; omega)]

lemma read_ppm_p6_width1921 (rest : List Nat) :
    read_ppm (80 :: 54 :: 10 :: 49 :: 57 :: 50 :: 49 :: 32 :: rest) =
      .error ⟨"Invalid width from input"⟩ := by
  have hd : decDigits 1921 = [49, 57, 50, 49] := rfl
  have htok : readToken (80 :: 54 :: 10 :: 49 :: 57 :: 50 :: 49 :: 32 :: rest) =
      some (strP6, 10 :: ([49, 57, 50, 49] ++ 32 :: rest)) := by
    have h0 := readToken_magic strP6 (by decide) (by decide) 10 (by decide)
      ([49, 57, 50, 49] ++ 32 :: rest)
    simpa [strP6] using h0
  have hrd : readU64 (10 :: ([49, 57, 50, 49] ++ 32 :: rest)) =
      some (1921, 32 :: rest) := by
    rw [readU64_cons_ws (by decide), ← hd,
      readU64_decDigits 1921 (by norm_num) 32 (by decide) rest]
  exact read_ppm_invalid_width htok (Or.inr rfl)
    (Or.inr ⟨1921, 32 :: rest, hrd, by norm_num⟩)

/-! ### Auxiliary length lemma -/

lemma length_flatten_pairs (d : List Nat) :
    ((d.map (fun v => [v / 256 % 256, v % 256])).flatten).length =
      2 * d.length := by
  induction d with
  | nil => rfl
  | cons a t ih =>
    simp only [List.map_cons, List.flatten_cons, List.length_append,
      List.length_cons, List.length_nil, ih]
    omega

/-! ### Claims -/

/-- Claim C1 (counterexample): decode ∘ encode is NOT the identity on every
invariant-satisfying image.  The ASCII image `P3 1x1 max 255` with samples
`[1,1,1]` satisfies all four invariants, yet `out_ppm` writes its payload as
raw bytes and `read_ppm` then fails to parse an integer token, so the
round-trip errors instead of returning the image. -/
theorem C1_counterexample :
    read_ppm (PPM.out_ppm ⟨MagicNum.P3, 1, 1, 255, [1, 1, 1]⟩) =
      .error ⟨"Unexpected EOF in P3 data"⟩ ∧
    (Except.error ⟨"Unexpected EOF in P3 data"⟩ : Except PPMError PPM) ≠
      .ok ⟨MagicNum.P3, 1, 1, 255, [1, 1, 1]⟩ :=
  ⟨rfl, by simp⟩

/-- Claim C1 (amended): for every BINARY-variant (`P6`) image satisfying the
four invariants of §3 (with `uint16_t`-representable samples, as forced by
`PPM::data_type`), decoding the encoded byte stream succeeds and returns the
original image: `read_ppm (out_ppm p) = ok p`.  For ASCII images the
round-trip fails in general because the encoder emits a raw-byte payload. -/
theorem C1_roundtrip_binary (p : PPM) (hmag : p.magic = MagicNum.P6)
    (hval : p.Valid) : read_ppm (PPM.out_ppm p) = .ok p := by
  obtain ⟨h1, h2, h3, h4, h5⟩ := hval
  exact roundtrip_p6 p hmag h1 h2 h3 h4 h5

/-- Witness for C1: a concrete binary image round-trips. -/
theorem C1_roundtrip_binary_witness :
    read_ppm (PPM.out_ppm ⟨MagicNum.P6, 1, 1, 255, [0, 128, 255]⟩) =
      .ok ⟨MagicNum.P6, 1, 1, 255, [0, 128, 255]⟩ :=
  C1_roundtrip_binary ⟨MagicNum.P6, 1, 1, 255, [0, 128, 255]⟩ rfl
    ⟨by decide, by decide, by decide, by decide, by decide⟩

/-- Claim C2: the encoder is claimed to write each ASCII-variant sample as
its decimal textual representation.  The code instead writes raw binary
bytes for both variants: at the failing input (ASCII image with samples
`[65, 66, 67]`), `out_ppm` emits the raw bytes `65, 66, 67` after the
header, not the decimal text `"656667"` (bytes `[54,53,54,54,54,55]`). -/
theorem C2_ascii_encoder_emits_raw_bytes :
    PPM.out_ppm ⟨MagicNum.P3, 1, 1, 255, [65, 66, 67]⟩ =
      [80, 51, 10, 49, 32, 49, 10, 50, 53, 53, 10] ++ [65, 66, 67] ∧
    payloadBytes ⟨MagicNum.P3, 1, 1, 255, [65, 66, 67]⟩ = [65, 66, 67] ∧
    ([65, 66, 67] : List Nat) ≠ [54, 53, 54, 54, 54, 55] :=
  ⟨rfl, rfl, by decide⟩

/-- Claim C3 (counterexample): the P6 decoder does NOT discard exactly one
byte after the max token.  In the stream `"P6\n1 1\n255 \n" ++ [65,66,67]`
the max token is followed by a space and a newline; the code discards both
(`ignore(255,'\n')`) and decodes samples `[65,66,67]`, whereas a one-byte
skip would make the newline byte `10` the first payload byte, giving
`[10,65,66]`. -/
theorem C3_counterexample :
    read_ppm ([80, 54, 10, 49, 32, 49, 10, 50, 53, 53, 32, 10] ++
      [65, 66, 67]) = .ok ⟨MagicNum.P6, 1, 1, 255, [65, 66, 67]⟩ ∧
    ([65, 66, 67] : List Nat) ≠ [10, 65, 66] :=
  ⟨rfl, by decide⟩

/-- Claim C3 (amended): after the max token the P6 decoder discards
characters up to and including the first newline (at most 255 of them),
via `is.ignore(255, '\n')`.  When the byte immediately after the max token
is a newline — the conventional layout — exactly one byte is discarded and
the byte after it is the first payload byte. -/
theorem C3_p6_header_skip :
    (∀ rest : List Nat, ignoreCount 255 10 (10 :: rest) = rest) ∧
    (∀ (pre rest : List Nat), pre.length ≤ 254 → (∀ c ∈ pre, c ≠ 10) →
      ignoreCount 255 10 (pre ++ 10 :: rest) = rest) ∧
    read_ppm ([80, 54, 10, 49, 32, 49, 10, 50, 53, 53, 10] ++ [7, 8, 9]) =
      .ok ⟨MagicNum.P6, 1, 1, 255, [7, 8, 9]⟩ :=
  ⟨ignoreCount255_nl,
   fun pre rest h1 h2 => ignoreCount_skips_to_delim 10 pre 254 rest h1 h2,
   rfl⟩

/-- Witness for C3: exactly the space and the newline are skipped. -/
theorem C3_p6_header_skip_witness :
    ignoreCount 255 10 ([32] ++ 10 :: [65, 66, 67]) = [65, 66, 67] :=
  C3_p6_header_skip.2.1 [32] [65, 66, 67] (by decide) (by decide)

/-- Claim C4 (counterexample): a successfully decoded image can violate
invariant 4.  The P6 stream with `max = 100` and raw payload bytes
`[200,200,200]` decodes successfully — the 8-bit P6 loop performs no range
check — yielding stored samples `200 > 100`. -/
theorem C4_counterexample :
    read_ppm ([80, 54, 10, 49, 32, 49, 10, 49, 48, 48, 10] ++
      [200, 200, 200]) = .ok ⟨MagicNum.P6, 1, 1, 100, [200, 200, 200]⟩ ∧
    ¬(200 ≤ 100) :=
  ⟨rfl, by decide⟩

/-- Claim C4 (amended): every successfully decoded image satisfies
`s ≤ max_value` for the ASCII variant and for the BINARY variant with
`max_value > 255`; in the BINARY 8-bit case (`max_value ≤ 255`) samples are
raw bytes bounded only by 255 and may exceed `max_value`. -/
theorem C4_decode_range_invariant {s : List Nat} {img : PPM}
    (h : read_ppm s = .ok img) :
    (img.magic = MagicNum.P3 → ∀ x ∈ img.data, x ≤ img.max) ∧
    (255 < img.max → ∀ x ∈ img.data, x ≤ img.max) ∧
    (img.magic = MagicNum.P6 → img.max ≤ 255 → ∀ x ∈ img.data, x ≤ 255) :=
  ⟨(read_ppm_ok h).2.2.2.2.1, (read_ppm_ok h).2.2.2.2.2.1,
   (read_ppm_ok h).2.2.2.2.2.2⟩

/-- Witness for C4: instantiated at concrete scenario-1 decode. -/
theorem C4_decode_range_invariant_witness :
    (MagicNum.P3 = MagicNum.P3 →
      ∀ x ∈ ([255, 0, 0, 0, 255, 0] : List Nat), x ≤ 255) ∧
    (255 < 255 → ∀ x ∈ ([255, 0, 0, 0, 255, 0] : List Nat), x ≤ 255) ∧
    (MagicNum.P3 = MagicNum.P6 → 255 ≤ 255 →
      ∀ x ∈ ([255, 0, 0, 0, 255, 0] : List Nat), x ≤ 255) :=
  @C4_decode_range_invariant
    [80, 51, 10, 50, 32, 49, 10, 50, 53, 53, 10, 50, 53, 53, 32, 48,
      32, 48, 32, 48, 32, 50, 53, 53, 32, 48]
    ⟨MagicNum.P3, 2, 1, 255, [255, 0, 0, 0, 255, 0]⟩ rfl

/-- Claim C5 (counterexample): not every decoded sample exceeding max_value
makes decoding fail.  The P6 stream with `max = 7` and raw 8-bit payload
`[9,9,9]` decodes successfully even though each sample `9` exceeds 7: the
8-bit P6 loop performs no range check at all. -/
theorem C5_counterexample :
    read_ppm ([80, 54, 10, 49, 32, 49, 10, 55, 10] ++ [9, 9, 9]) =
      .ok ⟨MagicNum.P6, 1, 1, 7, [9, 9, 9]⟩ ∧ 7 < 9 :=
  ⟨rfl, by decide⟩

/-- Claim C5 (amended): in the ASCII payload loop and in the BINARY 16-bit
payload loop, a sample value equal to `max_value` is accepted and a sample
value exceeding `max_value` aborts decoding with the SampleOutOfRange error
kind; in particular `"P3\n1 1\n255\n256"` fails that way.  (The BINARY
8-bit loop performs no such check.) -/
theorem C5_sample_range_check :
    (∀ (mx n : Nat) (s s1 acc : List Nat) (v : Int),
      readInt s = some (v, s1) → mx < u64OfInt v →
      readP3Loop mx (n + 1) s acc = .error ⟨"P3 color value out of range"⟩) ∧
    (∀ (mx n : Nat) (s s1 acc : List Nat) (v : Int),
      readInt s = some (v, s1) → u64OfInt v ≤ mx →
      readP3Loop mx (n + 1) s acc =
        readP3Loop mx n s1 (acc ++ [u16OfInt v])) ∧
    (∀ (mx n hi lo : Nat) (s1 acc : List Nat),
      mx < hi % 256 * 256 + lo % 256 →
      readP6Loop16 mx (n + 1) (hi :: lo :: s1) acc =
        .error ⟨"P6 color value out of range"⟩) ∧
    (∀ (mx n hi lo : Nat) (s1 acc : List Nat),
      hi % 256 * 256 + lo % 256 ≤ mx →
      readP6Loop16 mx (n + 1) (hi :: lo :: s1) acc =
        readP6Loop16 mx n s1 (acc ++ [(hi % 256 * 256 + lo % 256) % 65536])) ∧
    errKind ⟨"P3 color value out of range"⟩ = ErrKind.SampleOutOfRange ∧
    errKind ⟨"P6 color value out of range"⟩ = ErrKind.SampleOutOfRange ∧
    read_ppm [80, 51, 10, 49, 32, 49, 10, 50, 53, 53, 10, 50, 53, 54] =
      .error ⟨"P3 color value out of range"⟩ := by
  refine ⟨?_, ?_, ?_, ?_, rfl, rfl, rfl⟩
  · intro mx n s s1 acc v h hgt
    simp only [readP3Loop]
    rw [h]
    simp only []
    rw [if_pos (by omega)]
  · intro mx n s s1 acc v h hle
    simp only [readP3Loop]
    rw [h]
    simp only []
    rw [if_neg (by omega)]
  · intro mx n hi lo s1 acc hgt
    simp only [readP6Loop16]
    rw [if_pos (by omega)]
  · intro mx n hi lo s1 acc hle
    simp only [readP6Loop16]
    rw [if_neg (by omega)]

/-- Witness for C5: the out-of-range step at the concrete token `256`
against `max = 255`. -/
theorem C5_sample_range_check_witness :
    readP3Loop 255 (0 + 1) [50, 53, 54] [] =
      .error ⟨"P3 color value out of range"⟩ :=
  C5_sample_range_check.1 255 0 [50, 53, 54] [] [] 256 rfl (by decide)

/-- Claim C6: the decoder performs its checks in the fixed order magic,
width, height, max value, payload, and the first failing check determines
the error: whenever the magic check fails the error is InvalidMagic
regardless of the rest of the stream; with the magic valid, a width
extraction failure or excess width gives InvalidWidth; and so on for
height and max.  In particular a P6 stream declaring width 1921 fails with
InvalidWidth for every payload suffix, and a stream with bad magic and
truncated payload reports InvalidMagic. -/
theorem C6_ordered_error_checks :
    (∀ s : List Nat, readToken s = none →
      read_ppm s = .error ⟨"Invalid magic number from input"⟩) ∧
    (∀ s m s1 : List Nat, readToken s = some (m, s1) → m ≠ strP3 →
      m ≠ strP6 → read_ppm s = .error ⟨"Invalid magic number from input"⟩) ∧
    (∀ s m s1 : List Nat, readToken s = some (m, s1) →
      (m = strP3 ∨ m = strP6) →
      (readU64 s1 = none ∨ ∃ w s2, readU64 s1 = some (w, s2) ∧ 1920 < w) →
      read_ppm s = .error ⟨"Invalid width from input"⟩) ∧
    (∀ (s m s1 s2 : List Nat) (wv : Nat), readToken s = some (m, s1) →
      (m = strP3 ∨ m = strP6) → readU64 s1 = some (wv, s2) → wv ≤ 1920 →
      (readU64 s2 = none ∨ ∃ h s3, readU64 s2 = some (h, s3) ∧ 1080 < h) →
      read_ppm s = .error ⟨"Invalid height from input"⟩) ∧
    (∀ (s m s1 s2 s3 : List Nat) (wv hv : Nat), readToken s = some (m, s1) →
      (m = strP3 ∨ m = strP6) → readU64 s1 = some (wv, s2) → wv ≤ 1920 →
      readU64 s2 = some (hv, s3) → hv ≤ 1080 →
      (readU64 s3 = none ∨
        ∃ mv s4, readU64 s3 = some (mv, s4) ∧ 65536 < mv) →
      read_ppm s = .error ⟨"Invalid max color val from input"⟩) ∧
    (∀ rest : List Nat,
      read_ppm (80 :: 54 :: 10 :: 49 :: 57 :: 50 :: 49 :: 32 :: rest) =
        .error ⟨"Invalid width from input"⟩) ∧
    read_ppm [80, 88, 10, 49, 32, 49, 10, 50, 53, 53, 10] =
      .error ⟨"Invalid magic number from input"⟩ := by
  refine ⟨?_, ?_, ?_, ?_, ?_, ?_, rfl⟩
  · exact fun s h => read_ppm_invalid_magic_none h
  · exact fun s m s1 h h3 h6 => read_ppm_invalid_magic_tok h h3 h6
  · exact fun s m s1 htok hm hw => read_ppm_invalid_width htok hm hw
  · exact fun s m s1 s2 wv htok hm hwrd hwle hh =>
      read_ppm_invalid_height htok hm hwrd hwle hh
  · exact fun s m s1 s2 s3 wv hv htok hm hwrd hwle hhrd hhle hmx =>
      read_ppm_invalid_max htok hm hwrd hwle hhrd hhle hmx
  · exact read_ppm_p6_width1921

/-- Witness for C6: a stream whose first token is neither P3 nor P6. -/
theorem C6_ordered_error_checks_witness :
    read_ppm [80, 88] = .error ⟨"Invalid magic number from input"⟩ :=
  C6_ordered_error_checks.2.1 [80, 88] [80, 88] [] rfl (by decide) (by decide)

/-- Claim C7 (counterexample): `invert` does not replace every sample `s`
by `max_value - s` on every invariant-satisfying image.  At `max = 65536`
(accepted by the header checks) a sample `0` satisfies invariant 4, but the
`uint16_t` store truncates `65536 - 0` to `0`, so the inverted image is not
the claimed one with samples `65536 - 0`. -/
theorem C7_counterexample :
    (⟨MagicNum.P3, 1, 1, 65536, [0, 0, 0]⟩ : PPM).invert =
      ⟨MagicNum.P3, 1, 1, 65536, [0, 0, 0]⟩ ∧
    (⟨MagicNum.P3, 1, 1, 65536, [0, 0, 0]⟩ : PPM) ≠
      ⟨MagicNum.P3, 1, 1, 65536, [65536 - 0, 65536 - 0, 65536 - 0]⟩ :=
  ⟨rfl, by decide⟩

/-- Claim C7 (amended): `invert` replaces every sample `s` by
`(max_value - s) mod 2^16`, which equals `max_value - s` whenever
`max_value ≤ 65535`; it never alters `variant`, `width`, `height` or
`max_value`, is total, and on any image satisfying invariant 4 the
resulting samples again satisfy `0 ≤ s' ≤ max_value`.  Scenario 1 holds:
decoding `"P3\n2 1\n255\n255 0 0 0 255 0"` and inverting yields samples
`[0,255,255,255,0,255]`. -/
theorem C7_invert_transform :
    (∀ p : PPM, p.invert.magic = p.magic ∧ p.invert.width = p.width ∧
      p.invert.height = p.height ∧ p.invert.max = p.max) ∧
    (∀ p : PPM, p.max ≤ 65535 → (∀ x ∈ p.data, x ≤ p.max) →
      p.invert.data = p.data.map (fun s => p.max - s)) ∧
    (∀ p : PPM, p.max ≤ 65536 → (∀ x ∈ p.data, x ≤ p.max) →
      ∀ y ∈ p.invert.data, y ≤ p.max) ∧
    read_ppm [80, 51, 10, 50, 32, 49, 10, 50, 53, 53, 10, 50, 53, 53, 32,
      48, 32, 48, 32, 48, 32, 50, 53, 53, 32, 48] =
      .ok ⟨MagicNum.P3, 2, 1, 255, [255, 0, 0, 0, 255, 0]⟩ ∧
    (⟨MagicNum.P3, 2, 1, 255, [255, 0, 0, 0, 255, 0]⟩ : PPM).invert =
      ⟨MagicNum.P3, 2, 1, 255, [0, 255, 255, 255, 0, 255]⟩ := by
  refine ⟨fun p => ⟨rfl, rfl, rfl, rfl⟩, ?_, ?_, rfl, rfl⟩
  · intro p hmx hd
    exact map_invert_eq_sub hmx hd
  · intro p hmx hd y hy
    simp only [PPM.invert, List.mem_map] at hy
    obtain ⟨x, hx, rfl⟩ := hy
    exact invertSample_le hmx (hd x hx)

/-- Witness for C7: the subtraction form at the scenario-1 image. -/
theorem C7_invert_transform_witness :
    (⟨MagicNum.P3, 2, 1, 255, [255, 0, 0, 0, 255, 0]⟩ : PPM).invert.data =
      ([255, 0, 0, 0, 255, 0] : List Nat).map (fun s => 255 - s) :=
  C7_invert_transform.2.1 ⟨MagicNum.P3, 2, 1, 255, [255, 0, 0, 0, 255, 0]⟩
    (by decide) (by decide)

/-- Claim C8: `invert` is self-inverse — applying it twice to any image
satisfying the §3 invariants (with `uint16_t`-representable samples)
restores the original image. -/
theorem C8_invert_involutive (p : PPM) (hval : p.Valid) :
    p.invert.invert = p := by
  obtain ⟨-, -, -, -, hdata⟩ := hval
  obtain ⟨mg, w, h, mx, d⟩ := p
  simp only [PPM.invert, PPM.mk.injEq, true_and, and_true]
  exact map_invert_invert (fun x hx => (hdata x hx).2)

/-- Witness for C8: a concrete valid image. -/
theorem C8_invert_involutive_witness :
    (⟨MagicNum.P6, 1, 1, 255, [0, 128, 255]⟩ : PPM).invert.invert =
      ⟨MagicNum.P6, 1, 1, 255, [0, 128, 255]⟩ :=
  C8_invert_involutive ⟨MagicNum.P6, 1, 1, 255, [0, 128, 255]⟩
    ⟨by decide, by decide, by decide, by decide, by decide⟩

/-- Claim C9: binary sample byte-width is determined solely by `max_value`
on both encode and decode: the encoded payload is one raw byte per sample
when `max_value ≤ 255` and two big-endian bytes per sample (high byte
first) when `max_value > 255`; the P6 decode loops consume exactly 1
(respectively 2) stream bytes per sample; the boundary values 255 and 256
behave as claimed on concrete streams. -/
theorem C9_binary_sample_width :
    (∀ p : PPM, p.max ≤ 255 →
      payloadBytes p = p.data.map (fun v => v % 256) ∧
      (payloadBytes p).length = p.data.length) ∧
    (∀ p : PPM, 255 < p.max →
      payloadBytes p =
        (p.data.map (fun v => [v / 256 % 256, v % 256])).flatten ∧
      (payloadBytes p).length = 2 * p.data.length) ∧
    (∀ (n : Nat) (s acc out r : List Nat),
      readP6Loop8 n s acc = .ok (out, r) → s.length = n + r.length) ∧
    (∀ (mx n : Nat) (s acc out r : List Nat),
      readP6Loop16 mx n s acc = .ok (out, r) → s.length = 2 * n + r.length) ∧
    read_ppm ([80, 54, 10, 49, 32, 49, 10, 50, 53, 53, 10] ++ [7, 8, 9]) =
      .ok ⟨MagicNum.P6, 1, 1, 255, [7, 8, 9]⟩ ∧
    read_ppm ([80, 54, 10, 49, 32, 49, 10, 50, 53, 54, 10] ++
      [1, 0, 0, 255, 1, 0]) = .ok ⟨MagicNum.P6, 1, 1, 256,
      [256, 255, 256]⟩ := by
  refine ⟨?_, ?_, readP6Loop8_consumes, fun mx => readP6Loop16_consumes mx,
    rfl, rfl⟩
  · intro p h
    constructor
    · simp only [payloadBytes, if_pos h]
    · simp only [payloadBytes, if_pos h, List.length_map]
  · intro p h
    constructor
    · simp only [payloadBytes, if_neg (by omega : ¬p.max ≤ 255)]
    · simp only [payloadBytes, if_neg (by omega : ¬p.max ≤ 255)]
      exact length_flatten_pairs p.data

/-- Witness for C9: the 8-bit loop consumes one byte per sample. -/
theorem C9_binary_sample_width_witness :
    ([7, 8, 9] : List Nat).length = 3 + ([] : List Nat).length :=
  C9_binary_sample_width.2.2.1 3 [7, 8, 9] [] [7, 8, 9] [] rfl

/-- Claim C10: sample storage is 16-bit — every sample stored by a
successful decode is `< 2^16`; with `max_value = 65536` the ASCII token
`65536` passes the range check but is stored as `0`; and `invert` computes
`(max_value - s) mod 2^16`, so sample `0` under `max_value = 65536`
inverts to `0` rather than `65536`. -/
theorem C10_uint16_sample_storage :
    (∀ (s : List Nat) (img : PPM), read_ppm s = .ok img →
      ∀ x ∈ img.data, x < 65536) ∧
    read_ppm [80, 51, 10, 49, 32, 49, 10, 54, 53, 53, 51, 54, 10, 54, 53,
      53, 51, 54, 32, 54, 53, 53, 51, 54, 32, 54, 53, 53, 51, 54] =
      .ok ⟨MagicNum.P3, 1, 1, 65536, [0, 0, 0]⟩ ∧
    invertSample 65536 0 = 0 ∧
    (⟨MagicNum.P3, 1, 1, 65536, [0, 0, 0]⟩ : PPM).invert =
      ⟨MagicNum.P3, 1, 1, 65536, [0, 0, 0]⟩ :=
  ⟨fun _ _ h => (read_ppm_ok h).2.2.2.1, rfl, rfl, rfl⟩

/-- Witness for C10: the storage bound at the concrete decode above. -/
theorem C10_uint16_sample_storage_witness :
    ∀ x ∈ ([0, 0, 0] : List Nat), x < 65536 :=
  C10_uint16_sample_storage.1
    [80, 51, 10, 49, 32, 49, 10, 54, 53, 53, 51, 54, 10, 54, 53, 53, 51,
      54, 32, 54, 53, 53, 51, 54, 32, 54, 53, 53, 51, 54]
    ⟨MagicNum.P3, 1, 1, 65536, [0, 0, 0]⟩ rfl
